import Mathlib

/-!
Verification of the `issue9/scheduled` in-process task scheduler.

The Go sources under verification are `job.go` (job state machine, sorting,
registration), `server.go` (the `Serve` guard and dispatch walk) and the
expression parser of package `schedule/expr` (whose implementation file is
absent; it is modelled from the specification and pinned by the expectations
of `parse_test.go`).

Modelling conventions:
* `time.Time` is a pair of a nanosecond instant (`Nat`, `0` being the zero
  sentinel of `time.Time{}`) and a location identifier (`Nat`); `In` rebases
  the location and keeps the instant, exactly as in Go.
* Go errors are strings; `nil` errors are `Option.none`.
* A callback either returns normally (`ok`, carrying `some err` or `none`)
  or panics with a value that is either an error or some other value
  (`crash`); `Job.run` models the `defer`/`recover` of the source: the
  recover branch receives the state as it was at the point of the panic.
* `schedulers.Scheduler` is its `Next` function, `Time → Time`.
* Mutation is modelled by explicit state passing: a method on `*Server`
  becomes a function `Server → ... → α × Server` (or `→ Server`).
-/

namespace Scheduled

/-- Go `time.Time`: an absolute instant (nanoseconds, `0` = the zero value
`time.Time{}`) together with a location (time zone) identifier. -/
structure Time where
  instant : Nat
  loc : Nat
deriving DecidableEq

/-- `time.Time.IsZero`: whether the instant is the zero sentinel. -/
def Time.IsZero (t : Time) : Bool := t.instant == 0

/-- `time.Time.After`: `t.After u` iff `t`'s instant is strictly later. -/
def Time.After (t u : Time) : Bool := decide (u.instant < t.instant)

/-- `time.Time.Before`. -/
def Time.Before (t u : Time) : Bool := decide (t.instant < u.instant)

/-- `time.Time.In`: same instant, rebased into another location. -/
def Time.In (t : Time) (l : Nat) : Time := ⟨t.instant, l⟩

/-- `time.Time.Location`. -/
def Time.Location (t : Time) : Nat := t.loc

/-- Job states, `job.go`: `Stopped`, `Running`, `Failed`. -/
inductive State where
  | Stopped
  | Running
  | Failed
deriving DecidableEq

/-- A Go value thrown by `panic`: either an `error` or any other value
(rendered as its format string). -/
inductive GoVal where
  | errVal (e : String)
  | otherVal (s : String)
deriving DecidableEq

/-- The observable behaviour of one callback invocation: a normal return
carrying the returned error (`none` = `nil`), or a panic. -/
inductive CallbackOutcome where
  | ok (e : Option String)
  | crash (v : GoVal)
deriving DecidableEq

/-- `JobFunc`, `job.go`: the signature of the work callback. -/
def JobFunc := Time → CallbackOutcome

/-- `schedulers.Scheduler`, reduced to its `Next` method. -/
def Scheduler := Time → Time

/-- `Job`, `job.go`: a named unit of work bound to a scheduler. -/
structure Job where
  scheduler : Scheduler
  name : String
  f : JobFunc
  state : State := State.Stopped
  err : Option String := none
  delay : Bool := false
  prev : Time := ⟨0, 0⟩
  next : Time := ⟨0, 0⟩
  at_ : Time := ⟨0, 0⟩

/-- `Job.Err`, `job.go` line 75. -/
def Job.Err (j : Job) : Option String := j.err

/-- `Job.Next`, `job.go` line 66. -/
def Job.Next (j : Job) : Time := j.next

/-- `Job.Prev`, `job.go` line 69. -/
def Job.Prev (j : Job) : Time := j.prev

/-- `Job.Delay`, `job.go` line 80. -/
def Job.Delay (j : Job) : Bool := j.delay

/-- The error installed by the `recover` branch of `Job.run`
(`job.go` lines 87-92): the panicked value itself when it is an `error`,
otherwise `fmt.Errorf("job %s error: %v", j.name, msg)`. -/
def recoverErr (name : String) : GoVal → String
  | .errVal e => e
  | .otherVal s => "job " ++ name ++ " error: " ++ s

/-- The job right after the first executed statement of `run`
(`job.go` line 103): state set to `Running`, everything else untouched. -/
def Job.started (j : Job) : Job := { j with state := State.Running }

/-- `Job.run`, `job.go` lines 85-122. `wallNow` is the value `time.Now()`
would return at the recomputation point. The callback is invoked on the
already-`started` job; a panic transfers control to the deferred `recover`
(which only sets `err` and `state`), so the trailing `prev`/`next` update
runs only when the callback returns normally. -/
def Job.run (j : Job) (wallNow : Time) : Job :=
  let j1 := j.started
  match j1.f j1.at_ with
  | .crash v =>
      { j1 with err := some (recoverErr j1.name v), state := State.Failed }
  | .ok e =>
      let j2 := { j1 with
        err := e,
        state := if e.isSome then State.Failed else State.Stopped }
      { j2 with
        prev := j2.next,
        next := if j2.delay then j2.scheduler (wallNow.In j2.at_.Location)
                else j2.scheduler j2.at_ }

/-- `Job.init`, `job.go` lines 125-127. -/
def Job.init (j : Job) (now : Time) : Job := { j with next := j.scheduler now }

/-- A concrete ticker-like scheduler used by the counterexamples:
`Next ref = ref + dur` (the interval scheduler of spec 4.2 without the
immediate-first-fire flag, which no claim observes). -/
def tickSched (dur : Nat) : Scheduler := fun t => ⟨t.instant + dur, t.loc⟩

/-- Counterexample job for C1: its callback panics; `prev` and `next` hold
values that the claim predicts would change. -/
def c1Job : Job :=
  { scheduler := tickSched 1
    name := "x"
    f := fun _ => CallbackOutcome.crash (GoVal.otherVal "boom")
    state := State.Stopped
    err := none
    delay := false
    prev := ⟨3, 0⟩
    next := ⟨5, 0⟩
    at_ := ⟨5, 0⟩ }

/-- C1 counterexample: the claim predicts that after a crashed run
`prev = 5` (the old `next`) and `next = Scheduler.Next(at) = 6`; the code
leaves `prev = 3` and `next = 5` because the recover branch skips the
re-arm statements at `job.go` lines 116-121. -/
theorem c1_crash_skips_rearm :
    (c1Job.run ⟨7, 0⟩).prev = ⟨3, 0⟩ ∧ (c1Job.run ⟨7, 0⟩).next = ⟨5, 0⟩ ∧
    c1Job.next = ⟨5, 0⟩ ∧ c1Job.scheduler c1Job.at_ = ⟨6, 0⟩ ∧
    (c1Job.run ⟨7, 0⟩).prev ≠ c1Job.next ∧
    (c1Job.run ⟨7, 0⟩).next ≠ c1Job.scheduler c1Job.at_ := by
  refine ⟨rfl, rfl, rfl, rfl, ?_, ?_⟩ <;> decide

/-- C1 (amended): when the callback returns normally (with or without an
error), `prev` becomes the value `next` had before the run and `next` is
recomputed via the scheduler — from the wall-clock completion time re-based
into the job's original time zone when `delay` is set, otherwise from the
scheduled time `at` — but when the callback crashes, `prev` and `next` are
left unchanged (the recover branch does not re-arm). -/
theorem c1_rearm_on_normal_return (j : Job) (wallNow : Time) :
    (∀ e, j.f j.at_ = CallbackOutcome.ok e →
      (j.run wallNow).prev = j.next ∧
      (j.run wallNow).next =
        (if j.delay then j.scheduler (wallNow.In j.at_.Location)
         else j.scheduler j.at_)) ∧
    (∀ v, j.f j.at_ = CallbackOutcome.crash v →
      (j.run wallNow).prev = j.prev ∧ (j.run wallNow).next = j.next) := by
  constructor
  · intro e he
    simp [Job.run, Job.started, he]
  · intro v hv
    simp [Job.run, Job.started, hv]

/-- Witness for C1's amended theorem at a concrete job whose callback
returns `nil`: `prev` takes the old `next` and `next` advances via the
scheduler from `at`. -/
theorem c1_rearm_witness :
    ({ c1Job with f := fun _ => CallbackOutcome.ok none : Job }.run ⟨7, 0⟩).prev = ⟨5, 0⟩ ∧
    ({ c1Job with f := fun _ => CallbackOutcome.ok none : Job }.run ⟨7, 0⟩).next = ⟨6, 0⟩ := by
  have h := (c1_rearm_on_normal_return
    { c1Job with f := fun _ => CallbackOutcome.ok none } ⟨7, 0⟩).1 none rfl
  exact ⟨h.1, h.2⟩

/-- C2: `run` sets the state to `Running` as its first action and then
invokes the callback on the `started` job; a panic is absorbed (run still
returns a job), the state becomes `Failed` and `err` becomes the panicked
value when it is an error, else a synthesized error naming the job; a
normal return with a non-`nil` error yields `Failed`, with `nil` yields
`Stopped`. -/
theorem c2_run_state_machine (j : Job) (wallNow : Time) :
    (j.started).state = State.Running ∧
    (j.run wallNow).state =
      (match j.f j.at_ with
       | .crash _ => State.Failed
       | .ok (some _) => State.Failed
       | .ok none => State.Stopped) ∧
    (j.run wallNow).err =
      (match j.f j.at_ with
       | .crash (.errVal e) => some e
       | .crash (.otherVal s) => some ("job " ++ j.name ++ " error: " ++ s)
       | .ok e => e) := by
  refine ⟨rfl, ?_, ?_⟩ <;>
    cases h : j.f j.at_ with
    | crash v =>
        cases v <;> simp [Job.run, Job.started, recoverErr, h]
    | ok e =>
        cases e <;> simp [Job.run, Job.started, h]

/-- C10: whenever the callback returns normally, `err` is overwritten with
the callback's return value, so `Err()` after a `nil`-returning run is
`nil` regardless of any earlier recorded error. -/
theorem c10_err_not_sticky (j : Job) (wallNow : Time) (e : Option String)
    (h : j.f j.at_ = CallbackOutcome.ok e) :
    (j.run wallNow).Err = e := by
  simp [Job.run, Job.started, Job.Err, h]

/-- Witness for C10: a job carrying a previous error whose callback now
returns `nil` reads back a `nil` error after the run. -/
theorem c10_err_not_sticky_witness :
    ({ c1Job with err := some "old", f := fun _ => CallbackOutcome.ok none : Job }.run
      ⟨7, 0⟩).Err = none :=
  c10_err_not_sticky
    { c1Job with err := some "old", f := fun _ => CallbackOutcome.ok none }
    ⟨7, 0⟩ none rfl

/-- The comparator handed to `sort.SliceStable` by `sortJobs`
(`job.go` lines 130-138): a job with a zero `next` or in `Running` state is
never "less" (sorts last); two schedulable jobs compare by `next`. -/
def jobLess (a b : Job) : Bool :=
  if a.next.IsZero || (a.state == State.Running) then false
  else if b.next.IsZero || (b.state == State.Running) then true
  else decide (a.next.instant < b.next.instant)

/-- The condition under which `jobLess` orders a job last: zero `next` or
`Running` state. -/
def tailJob (j : Job) : Bool := j.next.IsZero || (j.state == State.Running)

/-- The non-strict order induced by the comparator: `a` may stay before
`b` exactly when `b` is not strictly less than `a` — the order realised by
a stable sort. -/
def jobOrder (a b : Job) : Prop := jobLess b a = false

instance : DecidableRel jobOrder := fun a b =>
  inferInstanceAs (Decidable (jobLess b a = false))

theorem jobLess_of_tail_left {a : Job} (b : Job) (h : tailJob a = true) :
    jobLess a b = false := by
  unfold tailJob at h
  simp [jobLess, h]

theorem jobLess_of_tail_right {a b : Job} (ha : tailJob a = false)
    (hb : tailJob b = true) : jobLess a b = true := by
  unfold tailJob at ha hb
  simp [jobLess, ha, hb]

theorem jobLess_of_nontail {a b : Job} (ha : tailJob a = false)
    (hb : tailJob b = false) :
    jobLess a b = decide (a.next.instant < b.next.instant) := by
  unfold tailJob at ha hb
  simp [jobLess, ha, hb]

instance : IsTotal Job jobOrder := by
  constructor
  intro a b
  unfold jobOrder
  by_cases ha : tailJob a = true
  · right; exact jobLess_of_tail_left b ha
  · by_cases hb : tailJob b = true
    · left; exact jobLess_of_tail_left a hb
    · rw [Bool.not_eq_true] at ha hb
      rw [jobLess_of_nontail ha hb, jobLess_of_nontail hb ha]
      by_cases hlt : a.next.instant < b.next.instant
      · left; simp; omega
      · right; simp [hlt]

instance : IsTrans Job jobOrder := by
  constructor
  intro a b c h1 h2
  unfold jobOrder at h1 h2 ⊢
  by_cases hc : tailJob c = true
  · exact jobLess_of_tail_left a hc
  · rw [Bool.not_eq_true] at hc
    by_cases hb : tailJob b = true
    · rw [jobLess_of_tail_right hc hb] at h2; cases h2
    · rw [Bool.not_eq_true] at hb
      by_cases ha : tailJob a = true
      · rw [jobLess_of_tail_right hb ha] at h1; cases h1
      · rw [Bool.not_eq_true] at ha
        rw [jobLess_of_nontail hb ha] at h1
        rw [jobLess_of_nontail hc hb] at h2
        rw [jobLess_of_nontail hc ha]
        simp only [decide_eq_false_iff_not] at h1 h2 ⊢
        omega

/-- `sortJobs`, `job.go` lines 129-139: the stable sort of the job
collection under the dispatch comparator. A stable sort is uniquely
determined by its comparator, so `sort.SliceStable` is modelled by stable
insertion sort. -/
def sortJobs (l : List Job) : List Job := List.insertionSort jobOrder l

theorem sortJobs_perm (l : List Job) : (sortJobs l).Perm l :=
  List.perm_insertionSort jobOrder l

theorem sortJobs_pairwise (l : List Job) : (sortJobs l).Pairwise jobOrder :=
  List.sorted_insertionSort jobOrder l

theorem pairwise_dropWhile_tail :
    ∀ L : List Job, L.Pairwise jobOrder →
      ∀ j ∈ L.dropWhile (fun x => !tailJob x), tailJob j = true := by
  intro L
  induction L with
  | nil => intro _ j hj; simp at hj
  | cons x xs ih =>
      intro h j hj
      rw [List.pairwise_cons] at h
      by_cases hx : tailJob x = true
      · rw [List.dropWhile_cons, hx] at hj
        simp only [Bool.not_true, if_neg (by decide : ¬ (false = true))] at hj
        rcases List.mem_cons.mp hj with rfl | hmem
        · exact hx
        · by_cases hj2 : tailJob j = true
          · exact hj2
          · rw [Bool.not_eq_true] at hj2
            have := h.1 j hmem
            unfold jobOrder at this
            rw [jobLess_of_tail_right hj2 hx] at this
            cases this
      · rw [List.dropWhile_cons] at hj
        rw [Bool.not_eq_true] at hx
        simp only [hx, Bool.not_false, if_pos] at hj
        exact ih h.2 j hj

theorem pairwise_takeWhile_ascending (L : List Job) (h : L.Pairwise jobOrder) :
    (L.takeWhile fun x => !tailJob x).Pairwise
      (fun a b => a.next.instant ≤ b.next.instant) := by
  have hsub : (L.takeWhile fun x => !tailJob x).Pairwise jobOrder :=
    h.sublist (List.takeWhile_sublist _)
  refine hsub.imp_of_mem ?_
  intro a b ha hb hab
  have ha' := List.mem_takeWhile_imp ha
  have hb' := List.mem_takeWhile_imp hb
  rw [Bool.not_eq_true'] at ha' hb'
  unfold jobOrder at hab
  rw [jobLess_of_nontail hb' ha'] at hab
  simp only [decide_eq_false_iff_not] at hab
  omega

theorem filter_orderedInsert_tail_pos (x : Job) (hx : tailJob x = true) :
    ∀ l : List Job,
      (List.orderedInsert jobOrder x l).filter tailJob = x :: l.filter tailJob := by
  intro l
  induction l with
  | nil => simp [List.orderedInsert, hx]
  | cons y ys ih =>
      rw [List.orderedInsert]
      by_cases hy : tailJob y = true
      · rw [if_pos]
        · simp [hx, hy]
        · show jobLess y x = false
          exact jobLess_of_tail_left x hy
      · rw [Bool.not_eq_true] at hy
        rw [if_neg]
        · simp only [List.filter_cons, hy]
          simp only [Bool.false_eq_true, if_neg (by decide : ¬ (false = true))]
          exact ih
        · show ¬ jobLess y x = false
          rw [jobLess_of_tail_right hy hx]
          decide

theorem filter_orderedInsert_tail_neg (x : Job) (hx : tailJob x = false) :
    ∀ l : List Job,
      (List.orderedInsert jobOrder x l).filter tailJob = l.filter tailJob := by
  intro l
  induction l with
  | nil => simp [List.orderedInsert, hx]
  | cons y ys ih =>
      rw [List.orderedInsert]
      by_cases hc : jobOrder x y
      · rw [if_pos hc]
        simp [hx]
      · rw [if_neg hc]
        simp only [List.filter_cons]
        rw [ih]

/-- Tail-block stability: the jobs that `sortJobs` orders last (zero `next`
or `Running`) appear in the sorted list in their original relative order. -/
theorem sortJobs_filter_tail (l : List Job) :
    (sortJobs l).filter tailJob = l.filter tailJob := by
  unfold sortJobs
  induction l with
  | nil => rfl
  | cons x xs ih =>
      rw [List.insertionSort]
      by_cases hx : tailJob x = true
      · rw [filter_orderedInsert_tail_pos x hx, ih, List.filter_cons, hx]
        simp
      · rw [Bool.not_eq_true] at hx
        rw [filter_orderedInsert_tail_neg x hx, ih, List.filter_cons, hx]
        simp

/-- The five-job fixture of `TestSortJobs` (`job_test.go` lines 79-110):
names "1".."5" with `next` values `now+1111`, zero, `now`, zero,
`now+222`; all states are the zero value `Stopped`. -/
def testJobs (now : Nat) : List Job :=
  [ { scheduler := tickSched 0, name := "1", f := fun _ => CallbackOutcome.ok none,
      next := ⟨now + 1111, 0⟩ },
    { scheduler := tickSched 0, name := "2", f := fun _ => CallbackOutcome.ok none,
      next := ⟨0, 0⟩ },
    { scheduler := tickSched 0, name := "3", f := fun _ => CallbackOutcome.ok none,
      next := ⟨now, 0⟩ },
    { scheduler := tickSched 0, name := "4", f := fun _ => CallbackOutcome.ok none,
      next := ⟨0, 0⟩ },
    { scheduler := tickSched 0, name := "5", f := fun _ => CallbackOutcome.ok none,
      next := ⟨now + 222, 0⟩ } ]

/-- C4: `sortJobs` permutes the collection so that every job with a zero
`next` or in `Running` state comes after every schedulable job, the
schedulable block is ascending in `next`, the tail block keeps its
original relative order (stability), and on the five-job fixture the
result order is "3", "5", "1" followed by the zero-`next` jobs "2", "4". -/
theorem c4_sortJobs_order (l : List Job) :
    (sortJobs l).Perm l ∧
    sortJobs l = ((sortJobs l).takeWhile fun x => !tailJob x) ++
      ((sortJobs l).dropWhile fun x => !tailJob x) ∧
    (∀ j ∈ (sortJobs l).takeWhile fun x => !tailJob x, tailJob j = false) ∧
    (∀ j ∈ (sortJobs l).dropWhile fun x => !tailJob x, tailJob j = true) ∧
    ((sortJobs l).takeWhile fun x => !tailJob x).Pairwise
      (fun a b => a.next.instant ≤ b.next.instant) ∧
    (sortJobs l).filter tailJob = l.filter tailJob ∧
    ∀ now : Nat, now ≠ 0 →
      (sortJobs (testJobs now)).map Job.name = ["3", "5", "1", "2", "4"] := by
  refine ⟨sortJobs_perm l, (List.takeWhile_append_dropWhile _ _).symm,
    ?_, pairwise_dropWhile_tail _ (sortJobs_pairwise l),
    pairwise_takeWhile_ascending _ (sortJobs_pairwise l),
    sortJobs_filter_tail l, ?_⟩
  · intro j hj
    have := List.mem_takeWhile_imp hj
    rwa [Bool.not_eq_true'] at this
  · intro now hnow
    have h3 : decide (now + 222 < now) = false := by simp
    have h4 : decide (now < now + 1111) = true := by simp
    have h5 : decide (now + 222 < now + 1111) = true := by simp
    simp [testJobs, sortJobs, List.insertionSort, List.orderedInsert, jobOrder,
      jobLess, Time.IsZero, hnow, h3, h4, h5]

/-- Witness for C4 at `now = 1`: the fixture sorts to "3", "5", "1", "2",
"4". -/
theorem c4_sortJobs_order_witness :
    (sortJobs (testJobs 1)).map Job.name = ["3", "5", "1", "2", "4"] :=
  (c4_sortJobs_order (testJobs 1)).2.2.2.2.2.2 1 (by decide)

/-- The continue-condition of the dispatch walk (`server.go` lines 74-79):
the loop breaks at the first job with `j.next.IsZero() || j.next.After(n)`
and dispatches every job before that point, so a job is walked over
exactly when its `next` is non-zero and at or before `n`. -/
def dueAt (n : Time) (j : Job) : Bool := !(j.next.IsZero || j.next.After n)

/-- The jobs dispatched on a timer fire at `n` (`server.go` lines 74-79):
the maximal front segment of the walked collection on which the walk does
not break. -/
def dispatchedAt (n : Time) (jobs : List Job) : List Job :=
  jobs.takeWhile (dueAt n)

theorem dueAt_nontail {n : Time} {j : Job} (h : dueAt n j = true)
    (hr : (j.state == State.Running) = false) : tailJob j = false := by
  unfold dueAt at h
  have h' : j.next.IsZero = false ∧ j.next.After n = false := by simpa using h
  unfold tailJob
  rw [h'.1, hr]
  rfl

theorem takeWhile_due_complete (n : Time) :
    ∀ L : List Job, L.Pairwise jobOrder →
      ∀ j ∈ L, dueAt n j = true → (j.state == State.Running) = false →
        j ∈ L.takeWhile (dueAt n) := by
  intro L
  induction L with
  | nil => intro _ j hj; simp at hj
  | cons x xs ih =>
      intro h j hj hdue hrun
      rw [List.pairwise_cons] at h
      rcases Bool.eq_false_or_eq_true (dueAt n x) with hdx | hdx
      · rw [List.takeWhile_cons, hdx, if_pos rfl]
        rcases List.mem_cons.mp hj with rfl | hmem
        · exact List.mem_cons_self _ _
        · exact List.mem_cons_of_mem _ (ih h.2 j hmem hdue hrun)
      · rcases List.mem_cons.mp hj with rfl | hmem
        · rw [hdue] at hdx; cases hdx
        · exfalso
          have horder := h.1 j hmem
          unfold jobOrder at horder
          have hjn : tailJob j = false := dueAt_nontail hdue hrun
          have hdx' : x.next.IsZero = true ∨ x.next.After n = true := by
            unfold dueAt at hdx
            rcases Bool.eq_false_or_eq_true x.next.IsZero with hz | hz
            · left; exact hz
            · right; simpa [hz] using hdx
          have hdue' : j.next.IsZero = false ∧ j.next.After n = false := by
            unfold dueAt at hdue
            simpa using hdue
          rcases hdx' with hz | haf
          · have hx : tailJob x = true := by unfold tailJob; rw [hz]; rfl
            rw [jobLess_of_tail_right hjn hx] at horder
            cases horder
          · rcases Bool.eq_false_or_eq_true (tailJob x) with hx | hx
            · rw [jobLess_of_tail_right hjn hx] at horder
              cases horder
            · rw [jobLess_of_nontail hjn hx] at horder
              simp only [decide_eq_false_iff_not] at horder
              unfold Time.After at haf
              rw [decide_eq_true_eq] at haf
              have hjaf := hdue'.2
              unfold Time.After at hjaf
              rw [decide_eq_false_iff_not] at hjaf
              omega

/-- C3 (amended): on a timer fire at `n`, every dispatched job is due
(`next` non-zero and at or before `n`), the dispatched jobs are exactly
the walked front segment (everything past the stop point is not
dispatched), and every due job that is not in `Running` state is
dispatched; a due job in `Running` state is sorted into the tail block and
may be skipped when the walk stops earlier. -/
theorem c3_dispatch_complete_for_nonrunning (l : List Job) (n : Time) :
    (∀ j ∈ dispatchedAt n (sortJobs l), dueAt n j = true) ∧
    sortJobs l = dispatchedAt n (sortJobs l) ++
      ((sortJobs l).dropWhile (dueAt n)) ∧
    (∀ j ∈ sortJobs l, dueAt n j = true → (j.state == State.Running) = false →
      j ∈ dispatchedAt n (sortJobs l)) := by
  refine ⟨?_, (List.takeWhile_append_dropWhile _ _).symm, ?_⟩
  · intro j hj
    exact List.mem_takeWhile_imp hj
  · intro j hj hdue hrun
    exact takeWhile_due_complete n (sortJobs l) (sortJobs_pairwise l) j hj hdue hrun

/-- A completed one-shot job: zero `next`, `Stopped`. -/
def jobB : Job :=
  { scheduler := tickSched 1, name := "b", f := fun _ => CallbackOutcome.ok none,
    state := State.Stopped, next := ⟨0, 0⟩ }

/-- A job still running with its stale (due) `next`. -/
def jobC : Job :=
  { scheduler := tickSched 1, name := "c", f := fun _ => CallbackOutcome.ok none,
    state := State.Running, next := ⟨4, 0⟩ }

/-- C3 counterexample: in the sorted collection `[jobB, jobC]` (already in
`sortJobs` order, as proved), `jobC` is due at `n = 10` — its `next` is
non-zero and before `n` — yet the walk dispatches nothing because it stops
at `jobB`, whose `next` is zero. A due job is therefore skipped. -/
theorem c3_due_job_skipped :
    sortJobs [jobB, jobC] = [jobB, jobC] ∧
    dueAt ⟨10, 0⟩ jobC = true ∧
    jobC ∈ sortJobs [jobB, jobC] ∧
    dispatchedAt ⟨10, 0⟩ (sortJobs [jobB, jobC]) = [] := by
  refine ⟨rfl, by decide, ?_, rfl⟩
  exact List.mem_cons_of_mem _ (List.mem_cons_self _ _)

/-- Witness for C3's amended theorem: a due `Stopped` job alone in the
collection is dispatched. -/
theorem c3_dispatch_witness :
    { scheduler := tickSched 1, name := "d", f := fun _ => CallbackOutcome.ok none,
      state := State.Stopped, next := ⟨4, 0⟩ : Job } ∈
      dispatchedAt ⟨10, 0⟩ (sortJobs
        [{ scheduler := tickSched 1, name := "d", f := fun _ => CallbackOutcome.ok none,
           state := State.Stopped, next := ⟨4, 0⟩ : Job }]) :=
  (c3_dispatch_complete_for_nonrunning
    [{ scheduler := tickSched 1, name := "d", f := fun _ => CallbackOutcome.ok none,
       state := State.Stopped, next := ⟨4, 0⟩ : Job }] ⟨10, 0⟩).2.2
    _ (List.mem_cons_self _ _) (by decide) (by decide)

/-- `Server`, `server.go` lines 13-18, with the `nextScheduled` signal
channel that `Server.New` (`job.go` lines 195-200) consults, modelled by
its number of pending signals. The `stop` channel plays no part in the
claims. -/
structure Server where
  jobs : List Job
  running : Bool
  nextScheduled : Nat
  loc : Nat
deriving Inhabited

/-- `ErrRunning` (declared outside the available sources; only its
identity matters). -/
def errRunning : String := "scheduled: server is running"

/-- `ErrNoJobs` (declared outside the available sources; only its
identity matters). -/
def errNoJobs : String := "scheduled: no jobs"

/-- The synchronous part of `Server.Serve`, `server.go` lines 38-53: the
already-running guard, the running-flag flip, the zero-jobs guard (which
flips the flag back), and the startup `init` of every job against the
captured current time. The dispatch loop that follows blocks on timers
and is modelled separately by `dispatchedAt`. -/
def Server.Serve (s : Server) (now : Time) : Option String × Server :=
  if s.running then (some errRunning, s)
  else
    let s1 : Server := { s with running := true }
    if s1.jobs.length = 0 then (some errNoJobs, { s1 with running := false })
    else (none, { s1 with jobs := s1.jobs.map (fun j => j.init now) })

/-- C5 counterexample: an already-running server with zero registered
jobs. The claim predicts the no-jobs error and a false running flag after
the call; `Serve` actually returns the already-running error (the running
guard fires first) and the flag remains true. -/
theorem c5_running_wins_over_nojobs :
    Server.Serve { jobs := [], running := true, nextScheduled := 0, loc := 0 } ⟨1, 0⟩ =
      (some errRunning,
        { jobs := [], running := true, nextScheduled := 0, loc := 0 }) ∧
    errRunning ≠ errNoJobs ∧
    (Server.Serve { jobs := [], running := true, nextScheduled := 0, loc := 0 }
      ⟨1, 0⟩).2.running = true := by
  refine ⟨rfl, ?_, rfl⟩
  decide

/-- C5 (amended): `Serve` returns the already-running error whenever the
running flag is set, and the no-jobs error when the flag is clear and no
job is registered; in both failure cases the server is returned exactly
as it was (so the flag keeps its prior value — true in the first case,
false in the second — and the job collection is untouched). -/
theorem c5_serve_guards (s : Server) (now : Time) :
    (s.running = true → s.Serve now = (some errRunning, s)) ∧
    (s.running = false → s.jobs = [] → s.Serve now = (some errNoJobs, s)) := by
  constructor
  · intro h
    simp [Server.Serve, h]
  · intro h hj
    cases s
    simp_all [Server.Serve]

/-- Witness for C5's amended theorem: a stopped, empty server fails with
the no-jobs error and is returned unchanged; a running server fails with
the already-running error and is returned unchanged. -/
theorem c5_serve_guards_witness :
    Server.Serve { jobs := [], running := false, nextScheduled := 0, loc := 0 } ⟨1, 0⟩ =
      (some errNoJobs,
        { jobs := [], running := false, nextScheduled := 0, loc := 0 }) ∧
    Server.Serve { jobs := [], running := true, nextScheduled := 3, loc := 0 } ⟨1, 0⟩ =
      (some errRunning,
        { jobs := [], running := true, nextScheduled := 3, loc := 0 }) :=
  ⟨(c5_serve_guards _ _).2 rfl rfl, (c5_serve_guards _ _).1 rfl⟩

/-- The comparator handed to `sort.SliceStable` by `Server.Jobs`
(`job.go` lines 146-148), as the non-strict order realised by a stable
sort: `a` may stay before `b` when `b.name` is not strictly below
`a.name`. -/
def nameOrder (a b : Job) : Prop := ¬ b.name < a.name

instance : DecidableRel nameOrder := fun a b =>
  inferInstanceAs (Decidable (¬ b.name < a.name))

instance : IsTotal Job nameOrder := by
  constructor
  intro a b
  unfold nameOrder
  by_cases h : a.name < b.name
  · left; exact lt_asymm h
  · right; exact h

instance : IsTrans Job nameOrder := by
  constructor
  intro a b c h1 h2
  unfold nameOrder at h1 h2 ⊢
  rw [not_lt] at h1 h2 ⊢
  exact le_trans h1 h2

/-- `Server.Jobs`, `job.go` lines 142-151: the job slice is copied into a
fresh backing array (`make` + `append`) and only that copy is stably
sorted by name, so the server — its dispatch-ordered `jobs` slice
included — is returned untouched. -/
def Server.Jobs (s : Server) : List Job × Server :=
  (List.insertionSort nameOrder s.jobs, s)

/-- C9: `Jobs()` leaves the server exactly as it was (same job sequence,
hence same dispatch ordering, and every job's fields unchanged) and
returns a name-sorted permutation of the job pointers. -/
theorem c9_jobs_no_mutation (s : Server) :
    (s.Jobs).2 = s ∧
    (s.Jobs).1.Perm s.jobs ∧
    (s.Jobs).1.Pairwise nameOrder :=
  ⟨rfl, List.perm_insertionSort nameOrder s.jobs,
    List.sorted_insertionSort nameOrder s.jobs⟩

/-! The expression parser of package `schedule/expr`. Its implementation
file is not among the available sources — only `parse_test.go` is — so the
definitions below are modelled from the specification (sections 3 and 4.1)
and pinned by the concrete expectations of `TestParse` and
`TestParseField`. Strings are processed as their character lists. -/

/-- Field indices, as named in `parse_test.go`. -/
def secondIndex : Nat := 0

/-- Minute field index. -/
def minuteIndex : Nat := 1

/-- Hour field index. -/
def hourIndex : Nat := 2

/-- Day-of-month field index. -/
def dayIndex : Nat := 3

/-- Month field index. -/
def monthIndex : Nat := 4

/-- Day-of-week field index. -/
def weekIndex : Nat := 5

/-- Modelled from the spec: the inclusive numeric bounds of each field
(spec 4.1): second 0-59, minute 0-59, hour 0-23, day-of-month 1-31,
month 1-12, day-of-week 0-7. -/
def fieldBounds : Nat → Nat × Nat
  | 3 => (1, 31)
  | 4 => (1, 12)
  | 5 => (0, 7)
  | 2 => (0, 23)
  | _ => (0, 59)

/-- Split a character list at every occurrence of `c` (the separators are
dropped; adjacent separators yield empty groups). -/
def splitOnChar (c : Char) : List Char → List (List Char)
  | [] => [[]]
  | a :: rest =>
      match splitOnChar c rest with
      | [] => if a = c then [[], []] else [[a]]
      | g :: gs => if a = c then [] :: g :: gs else (a :: g) :: gs

/-- The numeric value of a non-empty all-digit character list, `none`
otherwise. -/
def digitsVal? (s : List Char) : Option Nat :=
  if s ≠ [] ∧ s.all Char.isDigit then
    some (s.foldl (fun n c => n * 10 + (c.toNat - 48)) 0)
  else none

/-- Modelled from the spec: admit one integer into a field's bitset
(spec 3, 4.1): it must lie within the field's bounds; the day-of-week
field folds the value 7 onto bit 0; a value whose bit is already set is a
duplicate-coverage error, not silently de-duplicated. Every admissible
bit position is below 60, so `Nat` represents the 64-bit set exactly. -/
def addVal (idx : Nat) (bits : Nat) (v : Nat) : Except String Nat :=
  let b := fieldBounds idx
  if v < b.1 ∨ b.2 < v then Except.error "value out of range"
  else
    let k := if idx = weekIndex then v % 7 else v
    if bits.testBit k then Except.error "duplicate value"
    else Except.ok (bits ||| (1 <<< k))

/-- Modelled from the spec: one comma-separated entry of a field — a
single integer or an inclusive range `lo-hi` (spec 4.1); a missing or
non-numeric endpoint is a malformed-range error. -/
def parseEntry (idx : Nat) (bits : Nat) (entry : List Char) : Except String Nat :=
  match splitOnChar '-' entry with
  | [single] =>
      match digitsVal? single with
      | some v => addVal idx bits v
      | none => Except.error "invalid number"
  | [lo, hi] =>
      match digitsVal? lo, digitsVal? hi with
      | some l, some h =>
          if h < l then Except.error "malformed range"
          else (List.range' l (h + 1 - l)).foldlM (addVal idx) bits
      | _, _ => Except.error "malformed range"
  | _ => Except.error "malformed range"

/-- Modelled from the spec: `parseField` of package `schedule/expr`
(spec 4.1, pinned by `TestParseField`): the comma-separated entries are
folded into one 64-bit set; a trailing comma is tolerated and ignored. -/
def parseField (idx : Nat) (s : List Char) : Except String Nat :=
  let entries := splitOnChar ',' s
  let entries := if entries.getLast? = some [] then entries.dropLast else entries
  if entries = [] then Except.error "empty field"
  else entries.foldlM (parseEntry idx) 0

/-- A field as parsed before classification: wildcard text, or explicit
text with its bitset. -/
inductive RawF where
  | wild
  | conc (bits : Nat)
deriving DecidableEq

/-- The three field kinds of the data model (spec 3). -/
inductive FieldK where
  | any
  | step
  | concrete (bits : Nat)
deriving DecidableEq

/-- Modelled from the spec: the left-to-right classification pass
(spec 3): a field with explicit text is `concrete`; a wildcard is `step`
when the running pinned flag is already set and `any` otherwise; the flag
becomes set the moment any field is concrete. -/
def classify (pinned : Bool) : List RawF → List FieldK
  | [] => []
  | .wild :: rest =>
      (if pinned then FieldK.step else FieldK.any) :: classify pinned rest
  | .conc b :: rest => FieldK.concrete b :: classify true rest

/-- Modelled from the spec: the macro table (spec 4.1); the `@daily`
expansion is pinned by `TestParse`, the rest are the conventional
six-field forms. -/
def macros : List (String × String) :=
  [("@yearly", "0 0 0 1 1 *"), ("@annually", "0 0 0 1 1 *"),
   ("@monthly", "0 0 0 1 * *"), ("@weekly", "0 0 0 * * 0"),
   ("@daily", "0 0 0 * * *"), ("@midnight", "0 0 0 * * *"),
   ("@hourly", "0 0 * * * *")]

/-- Parse the six fields left to right, keeping wildcards raw. -/
def parseFields : Nat → List (List Char) → Except String (List RawF)
  | _, [] => Except.ok []
  | idx, f :: rest =>
      match (if f = ['*'] then Except.ok RawF.wild
             else Except.map RawF.conc (parseField idx f)) with
      | Except.error e => Except.error e
      | Except.ok r =>
          match parseFields (idx + 1) rest with
          | Except.error e => Except.error e
          | Except.ok rs => Except.ok (r :: rs)

/-- Modelled from the spec: `Parse` of package `schedule/expr` (spec 4.1,
pinned by `TestParse`): reject the empty expression, expand a macro,
require exactly six space-separated fields, parse each field, reject the
all-wildcard expression, and run the classification pass. -/
def Parse (s : String) : Except String (List FieldK) :=
  if s.data = [] then Except.error "empty expression"
  else
    let expanded : Except String (List Char) :=
      if s.data.head? = some '@' then
        match macros.find? (fun p => p.1 == s) with
        | some p => Except.ok p.2.data
        | none => Except.error "unknown macro"
      else Except.ok s.data
    match expanded with
    | Except.error e => Except.error e
    | Except.ok cs =>
        let fs := splitOnChar ' ' cs
        if fs.length ≠ 6 then Except.error "invalid field count"
        else
          match parseFields 0 fs with
          | Except.error e => Except.error e
          | Except.ok raws =>
              if raws.all (fun r => r == RawF.wild) then
                Except.error "all fields wildcard"
              else Except.ok (classify false raws)

/-- Whether some field strictly before position `i` is concrete — the
value of the running pinned flag when the classification pass reaches
position `i`. -/
def pinnedBefore (rs : List RawF) (i : Nat) : Bool :=
  (rs.take i).any (fun r => match r with | .conc _ => true | .wild => false)

theorem classify_get? :
    ∀ (rs : List RawF) (p : Bool) (i : Nat),
      (classify p rs).get? i =
        match rs.get? i with
        | none => none
        | some (.conc b) => some (FieldK.concrete b)
        | some .wild =>
            some (if p || pinnedBefore rs i then FieldK.step else FieldK.any) := by
  intro rs
  induction rs with
  | nil => intro p i; cases i <;> rfl
  | cons x rest ih =>
      intro p i
      cases x with
      | wild =>
          cases i with
          | zero => simp [classify, pinnedBefore]
          | succ k =>
              simp only [classify, List.get?_cons_succ]
              rw [ih p k]
              have : pinnedBefore (RawF.wild :: rest) (k + 1) = pinnedBefore rest k := by
                simp [pinnedBefore, List.take_succ_cons]
              rw [this]
      | conc b =>
          cases i with
          | zero => simp [classify]
          | succ k =>
              simp only [classify, List.get?_cons_succ]
              rw [ih true k]
              have : pinnedBefore (RawF.conc b :: rest) (k + 1) = true := by
                simp [pinnedBefore, List.take_succ_cons]
              rw [this]
              cases hk : rest.get? k with
              | none => rfl
              | some r => cases r <;> simp

/-- C6: `Parse` classifies the six fields left-to-right with a running
pinned flag — a field at position `i` is concrete when given explicit
text, and a wildcard classifies as `step` exactly when some field before
`i` is concrete (`any` otherwise) — and on the two sample expressions the
parsed fields are exactly as claimed. -/
theorem c6_parse_pinned_classification :
    Parse "* 3 * * * 6" = Except.ok
      [FieldK.any, FieldK.concrete (2 ^ 3), FieldK.step, FieldK.step,
       FieldK.step, FieldK.concrete (2 ^ 6)] ∧
    Parse "1-3,10,9 * 3-7 * * 1" = Except.ok
      [FieldK.concrete (2 ^ 1 + 2 ^ 2 + 2 ^ 3 + 2 ^ 9 + 2 ^ 10), FieldK.step,
       FieldK.concrete (2 ^ 3 + 2 ^ 4 + 2 ^ 5 + 2 ^ 6 + 2 ^ 7), FieldK.step,
       FieldK.step, FieldK.concrete (2 ^ 1)] ∧
    ∀ (rs : List RawF) (i : Nat),
      (classify false rs).get? i =
        match rs.get? i with
        | none => none
        | some (.conc b) => some (FieldK.concrete b)
        | some .wild =>
            some (if pinnedBefore rs i then FieldK.step else FieldK.any) := by
  refine ⟨rfl, rfl, ?_⟩
  intro rs i
  rw [classify_get? rs false i]
  cases rs.get? i with
  | none => rfl
  | some r => cases r <;> simp

/-- C7: in the day-of-week field, 7 denotes the same weekday as 0 and is
folded onto bit 0: `"7"` parses to the set containing only 0, `"5-7"` to
the set containing 0, 5 and 6, while `"0-7"` — which explicitly covers
both 0 and 7 — is a parse error (duplicate coverage of bit 0), not
de-duplicated. -/
theorem c7_week_seven_folds_to_zero :
    parseField weekIndex "7".data = Except.ok (2 ^ 0) ∧
    parseField weekIndex "5-7".data = Except.ok (2 ^ 0 + 2 ^ 5 + 2 ^ 6) ∧
    parseField weekIndex "0-7".data = Except.error "duplicate value" :=
  ⟨rfl, rfl, rfl⟩

/-- Modelled from the spec: `ticker.New` of package `schedulers/ticker`
(absent from src): constructing with a non-positive duration is an error
(spec 4.2); the scheduler otherwise fires `dur` after the reference. The
immediate-first-fire flag only changes the first `Next` call and is not
observed by any claim. -/
def tickerNew (dur : Int) (imm : Bool) : Except String Scheduler :=
  if dur ≤ 0 then Except.error "ticker: non-positive duration"
  else Except.ok (fun t => ⟨t.instant + dur.toNat, t.loc⟩)

/-- `Server.New`, `job.go` lines 185-201: append one job built from the
scheduler; when the server is already running, initialise the new job
against the current time and raise the jobs-changed signal unless one is
already pending. -/
def Server.New (s : Server) (name : String) (f : JobFunc)
    (scheduler : Scheduler) (delay : Bool) (now : Time) : Server :=
  let job : Job := { scheduler := scheduler, name := name, f := f, delay := delay }
  if s.running then
    { s with jobs := s.jobs ++ [job.init now],
             nextScheduled := if s.nextScheduled = 0 then 1 else s.nextScheduled }
  else { s with jobs := s.jobs ++ [job] }

/-- `Server.Tick`, `job.go` lines 154-160: construct the interval
scheduler; on success register through `New`, on failure return the error
untouched. -/
def Server.Tick (s : Server) (name : String) (f : JobFunc) (dur : Int)
    (imm delay : Bool) (now : Time) : Option String × Server :=
  match tickerNew dur imm with
  | Except.ok scheduler => (none, s.New name f scheduler delay now)
  | Except.error e => (some e, s)

/-- `Server.Cron`, `job.go` lines 165-171. `cron.Parse` (absent from src)
is modelled as expression parsing (`Parse`) followed by an abstract
construction `next` of the calendar scheduler from the parsed rule; the
claims do not observe the calendar search itself, so the theorem below
holds for every such construction. -/
def Server.Cron (next : List FieldK → Scheduler) (s : Server) (name : String)
    (f : JobFunc) (spc : String) (delay : Bool) (now : Time) :
    Option String × Server :=
  match Parse spc with
  | Except.ok rule => (none, s.New name f (next rule) delay now)
  | Except.error e => (some e, s)

/-- C8: registration via `Cron` (and via `Tick`) is atomic: when parsing
the expression (resp. constructing the ticker) fails, the call returns
that error and the server — its job collection included — is unchanged;
when it succeeds, the call returns nil and exactly one new job is
appended at the end of the collection. -/
theorem new_appends_one (s : Server) (name : String) (f : JobFunc)
    (scheduler : Scheduler) (delay : Bool) (now : Time) :
    ∃ j, (s.New name f scheduler delay now).jobs = s.jobs ++ [j] := by
  by_cases hr : s.running
  · exact ⟨Job.init { scheduler := scheduler, name := name, f := f, delay := delay } now,
      by unfold Server.New; rw [if_pos hr]⟩
  · exact ⟨{ scheduler := scheduler, name := name, f := f, delay := delay },
      by unfold Server.New; rw [if_neg hr]⟩

theorem c8_registration_atomic (next : List FieldK → Scheduler) (s : Server)
    (name : String) (f : JobFunc) (spc : String) (dur : Int)
    (imm delay : Bool) (now : Time) :
    (∀ e, Parse spc = Except.error e →
      Server.Cron next s name f spc delay now = (some e, s)) ∧
    (∀ rule, Parse spc = Except.ok rule →
      (Server.Cron next s name f spc delay now).1 = none ∧
      ∃ j, (Server.Cron next s name f spc delay now).2.jobs = s.jobs ++ [j]) ∧
    (∀ e, tickerNew dur imm = Except.error e →
      s.Tick name f dur imm delay now = (some e, s)) ∧
    (∀ sch, tickerNew dur imm = Except.ok sch →
      (s.Tick name f dur imm delay now).1 = none ∧
      ∃ j, (s.Tick name f dur imm delay now).2.jobs = s.jobs ++ [j]) := by
  refine ⟨?_, ?_, ?_, ?_⟩
  · intro e he
    simp [Server.Cron, he]
  · intro rule hrule
    refine ⟨by simp [Server.Cron, hrule], ?_⟩
    simp only [Server.Cron, hrule]
    exact new_appends_one s name f (next rule) delay now
  · intro e he
    simp [Server.Tick, he]
  · intro sch hsch
    refine ⟨by simp [Server.Tick, hsch], ?_⟩
    simp only [Server.Tick, hsch]
    exact new_appends_one s name f sch delay now

/-- Witness for C8 on a concrete idle server: a one-field expression
fails field counting and leaves the server unchanged, and a zero-duration
ticker fails construction and leaves the server unchanged. -/
theorem c8_registration_atomic_witness :
    Server.Cron (fun _ => fun t => t)
      { jobs := [], running := false, nextScheduled := 0, loc := 0 }
      "a" (fun _ => CallbackOutcome.ok none) "*" false ⟨1, 0⟩ =
      (some "invalid field count",
        { jobs := [], running := false, nextScheduled := 0, loc := 0 }) ∧
    Server.Tick { jobs := [], running := false, nextScheduled := 0, loc := 0 }
      "a" (fun _ => CallbackOutcome.ok none) 0 false false ⟨1, 0⟩ =
      (some "ticker: non-positive duration",
        { jobs := [], running := false, nextScheduled := 0, loc := 0 }) :=
  ⟨(c8_registration_atomic (fun _ => fun t => t)
      { jobs := [], running := false, nextScheduled := 0, loc := 0 }
      "a" (fun _ => CallbackOutcome.ok none) "*" 0 false false ⟨1, 0⟩).1
      "invalid field count" rfl,
   (c8_registration_atomic (fun _ => fun t => t)
      { jobs := [], running := false, nextScheduled := 0, loc := 0 }
      "a" (fun _ => CallbackOutcome.ok none) "*" 0 false false ⟨1, 0⟩).2.2.1
      "ticker: non-positive duration" rfl⟩

end Scheduled
